import Mathlib

/-!
Verification of the crawl-orchestration subsystem of the Tübingen search
engine (src/src/crawler/crawl.py) against its natural-language
specification.

The Python code keeps the link frontier as a pandas DataFrame indexed by
`doc_id`.  We embed it shallowly as an association list
`Frontier := List (String × Record)` kept in insertion order (pandas
`loc`-assignment with a fresh key appends a row at the end; with an
existing key it updates that row in place).  Every DataFrame cell may be
missing (`NaN`), so each `Record` field is `Option`-valued, `none`
standing for `NaN`.  Python/numpy comparison semantics on `NaN`
(`NaN < x`, `NaN > x` are false; `min`/`max` propagate the first
argument on incomparable pairs) are reproduced by `pyLT`, `pyGT`,
`pyMin`, `pyMax` below.

External facilities that the crawler calls but that are not part of the
repository (the `hashlib.md5` hex digest, `httpx` URL parsing of a raw
href string, and RFC-3986 relative-reference resolution `base.join`)
are passed in as an explicit environment `Ext`; the repository's own
logic never inspects their internals.  Wall-clock timestamps
(`pd.Timestamp.now()`) and `random.random()` draws are likewise passed
in as explicit arguments, since they are ambient effects in the source.
-/

namespace Crawl

/-- Status enum of src/src/crawler/types.py (a `StrEnum`: the stored cell
values are the strings "pending", "completed", "failed"). -/
inductive Status where
  | pending
  | completed
  | failed
deriving DecidableEq

/-- Priority enum of src/src/crawler/types.py: `high = 1`, `low = 0`. -/
inductive Priority where
  | high
  | low
deriving DecidableEq

/-- Numeric value of a `Priority`, as stored in the frontier
(`priority.value` in the source). -/
def Priority.value : Priority → Int
  | .high => 1
  | .low => 0

/-- Shallow model of an `httpx.URL`: the components the crawler reads or
rewrites.  `httpx` keeps query parameters inside `query`; it has no
separate path-parameter component (`copy_with(params=None)` is a no-op
for `None`). -/
structure Url where
  scheme : String
  userinfo : String
  host : String
  port : Option Nat
  path : String
  query : Option String
  fragment : Option String
deriving DecidableEq

/-- Serialization of a `Url`, modelling `str(url)` in the source. -/
def urlToString (u : Url) : String :=
  u.scheme ++ "://"
    ++ (if u.userinfo = "" then "" else u.userinfo ++ "@")
    ++ u.host
    ++ (match u.port with
        | some p => ":" ++ toString p
        | none => "")
    ++ u.path
    ++ (match u.query with
        | some q => "?" ++ q
        | none => "")
    ++ (match u.fragment with
        | some fr => "#" ++ fr
        | none => "")

/-- Crawler.clean_url: `url.copy_with(query=None, fragment=None,
params=None)`.  Removing the query also removes any query parameters;
nothing else changes. -/
def clean_url (u : Url) : Url :=
  { u with query := none, fragment := none }

/-- httpx `URL.is_absolute_url`: a scheme and a host are present. -/
def is_absolute_url (u : Url) : Bool :=
  u.scheme ≠ "" && u.host ≠ ""

/-- External facilities used by the crawler but implemented outside the
repository: the md5 hex digest of `hashlib`, parsing of a raw href
string into a URL (`httpx.URL(s)`, `none` modelling the `InvalidURL`
exception), and relative-reference resolution (`base_url.join(url)`). -/
structure Ext where
  hash : String → String
  parseUrl : String → Option Url
  joinUrl : Url → Url → Url

/-- Crawler.create_id_for_url: md5 hex digest of `str(url)`. -/
def create_id_for_url (ext : Ext) (u : Url) : String :=
  ext.hash (urlToString u)

/-- Crawler.get_main_domain: last two dot-separated labels of the host
when the host contains more than one dot, otherwise the whole host. -/
def get_main_domain (u : Url) : String :=
  let parts := u.host.splitOn "."
  if u.host.toList.count '.' > 1 then
    String.intercalate "." (parts.drop (parts.length - 2))
  else u.host

/-- Configuration of src/src/crawler/config.py, restricted to the fields
the verified functions read.  Denied-domain regular expressions are
modelled as host predicates. -/
structure Config where
  batch_size : Nat
  max_depth : Int
  max_filesize : Nat
  denied_domains : List (String → Bool)

/-- Crawler.is_url_valid: absolute, http(s) scheme, host matching no
denied-domain pattern. -/
def is_url_valid (cfg : Config) (u : Url) : Bool :=
  is_absolute_url u
    && (u.scheme == "http" || u.scheme == "https")
    && !(cfg.denied_domains.any (fun d => d u.host))

/-- Python `a < b` on two possibly-NaN numeric cells: any comparison
with NaN is false. -/
def pyLT : Option Int → Option Int → Bool
  | some x, some y => decide (x < y)
  | _, _ => false

/-- Python `a > b` on possibly-NaN numeric cells. -/
def pyGT (a b : Option Int) : Bool := pyLT b a

/-- Python `min(a, b)`: returns `b` exactly when `b < a`. -/
def pyMin (a b : Option Int) : Option Int := if pyLT b a then b else a

/-- Python `max(a, b)`: returns `b` exactly when `b > a`. -/
def pyMax (a b : Option Int) : Option Int := if pyGT b a then b else a

/-- One frontier row.  Every cell is `Option`-valued; `none` is a
missing value (NaN), which pandas can introduce by setting-with-
enlargement. -/
structure Record where
  url : Option String
  domain : Option String
  main_domain : Option String
  depth : Option Int
  priority : Option Int
  status : Option Status
  created : Option Nat
  updated : Option Nat
  root : Option String
  random_sort_key : Option Nat
  features_tubingen : Option Bool
  features_english : Option Bool
deriving DecidableEq

/-- Row whose every cell is missing; basis of a row created by pandas
setting-with-enlargement. -/
def emptyRecord : Record :=
  { url := none, domain := none, main_domain := none, depth := none
    priority := none, status := none, created := none, updated := none
    root := none, random_sort_key := none, features_tubingen := none
    features_english := none }

/-- The frontier DataFrame: rows in order, each keyed by its `doc_id`
index value. -/
abbrev Frontier : Type := List (String × Record)

/-- A well-formed frontier has pairwise-distinct `doc_id` index values,
as every reachable DataFrame of the crawler does. -/
def WF (f : Frontier) : Prop := (f.map Prod.fst).Nodup

instance (f : Frontier) : Decidable (WF f) :=
  inferInstanceAs (Decidable (f.map Prod.fst).Nodup)

/-- Index lookup `frontier.loc[doc_id]` (first matching row). -/
def flookup : Frontier → String → Option Record
  | [], _ => none
  | (k, r) :: rest, d => if k = d then some r else flookup rest d

/-- A keyword-argument dictionary for `update_doc`: for each column,
`some cell` when the column occurs in the dictionary (with `cell` the
possibly-NaN value assigned), `none` when it is absent. -/
structure Upd where
  url : Option (Option String) := none
  domain : Option (Option String) := none
  main_domain : Option (Option String) := none
  depth : Option (Option Int) := none
  priority : Option (Option Int) := none
  status : Option (Option Status) := none
  created : Option (Option Nat) := none
  updated : Option (Option Nat) := none
  root : Option (Option String) := none
  random_sort_key : Option (Option Nat) := none
  features_tubingen : Option (Option Bool) := none
  features_english : Option (Option Bool) := none

/-- Assign the columns present in the dictionary, leaving the others. -/
def applyUpd (u : Upd) (r : Record) : Record :=
  { url := u.url.getD r.url
    domain := u.domain.getD r.domain
    main_domain := u.main_domain.getD r.main_domain
    depth := u.depth.getD r.depth
    priority := u.priority.getD r.priority
    status := u.status.getD r.status
    created := u.created.getD r.created
    updated := u.updated.getD r.updated
    root := u.root.getD r.root
    random_sort_key := u.random_sort_key.getD r.random_sort_key
    features_tubingen := u.features_tubingen.getD r.features_tubingen
    features_english := u.features_english.getD r.features_english }

/-- Crawler.update_doc: add `updated = now` to the dictionary, then
`frontier.loc[doc_id, keys] = values`.  When `doc_id` is an existing
index value, every row carrying it is assigned in place; when it is
absent, pandas setting-with-enlargement appends a fresh row whose
unassigned cells are NaN. -/
def update_doc (f : Frontier) (doc_id : String) (u0 : Upd) (now : Nat) : Frontier :=
  let u : Upd := { u0 with updated := some (some now) }
  match flookup f doc_id with
  | some _ =>
      f.map (fun kr => if kr.1 = doc_id then (kr.1, applyUpd u kr.2) else kr)
  | none => f ++ [(doc_id, applyUpd u emptyRecord)]

/-- Fresh pending row as written by the insert branch of
Crawler.add_to_frontier (and, with depth 0 / high priority, by
convert_seed_to_frontier). -/
def newRecord (url : Url) (priority : Priority) (depth : Option Int)
    (root : Option String) (now rsk : Nat) : Record :=
  { url := some (urlToString url)
    domain := some url.host
    main_domain := some (get_main_domain url)
    depth := depth
    priority := some priority.value
    status := some Status.pending
    created := some now
    updated := some now
    root := root
    random_sort_key := some rsk
    features_tubingen := some false
    features_english := some false }

/-- Crawler.add_to_frontier: insert a fresh pending row when the id is
absent; when present and still pending and the proposal is strictly
better (smaller depth or higher priority), update depth to the minimum
and priority to the maximum via update_doc; otherwise do nothing. -/
def add_to_frontier (ext : Ext) (f : Frontier) (url : Url)
    (priority : Priority) (depth : Option Int) (root : Option String)
    (now rsk : Nat) : Frontier :=
  let doc_id := create_id_for_url ext url
  match flookup f doc_id with
  | none => f ++ [(doc_id, newRecord url priority depth root now rsk)]
  | some entry =>
      if decide (entry.status = some Status.pending)
          && (pyGT entry.depth depth
              || pyLT entry.priority (some priority.value)) then
        update_doc f doc_id
          { depth := some (pyMin entry.depth depth)
            priority := some (pyMax entry.priority (some priority.value)) }
          now
      else f

/-- Ephemeral scraping request of src/src/crawler/types.py.  `url`,
`root` and `depth` carry the raw frontier cells of the selected row
(possibly missing in a degenerate store). -/
structure ScrapingRequest where
  doc_id : String
  url : Option String
  root : Option String
  depth : Option Int
deriving DecidableEq

/-- Python `depth < cfg.max_depth` on a possibly-NaN cell. -/
def pyLTc (a : Option Int) (bound : Int) : Bool :=
  match a with
  | some x => decide (x < bound)
  | none => false

/-- Sort key for a `priority` cell under `ascending=False` with pandas
default `na_position='last'`: present values in descending numeric
order, NaN after all of them. -/
def prioKey : Option Int → Nat ×ₗ Int
  | some x => toLex (0, -x)
  | none => toLex (1, 0)

/-- Sort key for an ascending integer column, NaN last. -/
def ascIntKey : Option Int → Nat ×ₗ Int
  | some x => toLex (0, x)
  | none => toLex (1, 0)

/-- Sort key for the ascending `random_sort_key` column, NaN last. -/
def ascNatKey : Option Nat → Nat ×ₗ Nat
  | some x => toLex (0, x)
  | none => toLex (1, 0)

/-- Lexicographic sort key of one row for
`sort_values(["priority", "depth", "random_sort_key"],
ascending=[False, True, True])`. -/
def keyOf (r : Record) : (Nat ×ₗ Int) ×ₗ ((Nat ×ₗ Int) ×ₗ (Nat ×ₗ Nat)) :=
  toLex (prioKey r.priority,
    toLex (ascIntKey r.depth, ascNatKey r.random_sort_key))

/-- Row comparison used to model the `sort_values` call: row `a` may
come before row `b` exactly when its lexicographic key is not larger. -/
def rowLE (a b : String × Record) : Prop := keyOf a.2 ≤ keyOf b.2

instance : DecidableRel rowLE := fun a b =>
  inferInstanceAs (Decidable (keyOf a.2 ≤ keyOf b.2))

instance : IsTotal (String × Record) rowLE := ⟨fun _ _ => le_total _ _⟩

instance : IsTrans (String × Record) rowLE := ⟨fun _ _ _ h h' => le_trans h h'⟩

/-- Filter of the `frontier.query` call: status equal to the string
`'pending'` and `depth < max_depth` (a NaN cell satisfies neither). -/
def eligibleRows (cfg : Config) (f : Frontier) : Frontier :=
  f.filter (fun kr =>
    decide (kr.2.status = some Status.pending)
      && pyLTc kr.2.depth cfg.max_depth)

/-- Eligible rows sorted by (priority desc, depth asc, random_sort_key
asc), modelling the `sort_values` call (a comparison sort by that key;
pandas' quicksort is unstable, so no stability is relied on). -/
def sortedRows (cfg : Config) (f : Frontier) : Frontier :=
  (eligibleRows cfg f).insertionSort rowLE

/-- drop_duplicates(subset=["main_domain"], keep="first"): scan in
order, keep the first row of each distinct `main_domain` cell (pandas
treats two NaN cells as duplicates of each other). -/
def dropDupMd (seen : List (Option String)) : Frontier → Frontier
  | [] => []
  | kr :: rest =>
      if kr.2.main_domain ∈ seen then dropDupMd seen rest
      else kr :: dropDupMd (kr.2.main_domain :: seen) rest

/-- Rows surviving the whole query → sort → drop_duplicates → head
pipeline of Crawler.fetch_next_doc_batch. -/
def batchRows (cfg : Config) (f : Frontier) : Frontier :=
  (dropDupMd [] (sortedRows cfg f)).take cfg.batch_size

/-- Materialize one `ScrapingRequest` from a surviving row. -/
def toReq (kr : String × Record) : ScrapingRequest :=
  { doc_id := kr.1, url := kr.2.url, root := kr.2.root, depth := kr.2.depth }

/-- Crawler.fetch_next_doc_batch. -/
def fetch_next_doc_batch (cfg : Config) (f : Frontier) : List ScrapingRequest :=
  (batchRows cfg f).map toReq

/-- Mutable crawler state visible to the scheduler: the frontier
DataFrame held in `self.frontier`. -/
structure CrawlerState where
  frontier : Frontier

/-- Crawler.fetch_next_doc_batch as a method on the crawler state: it
builds the request list from `self.frontier` through pure,
copy-returning pandas operations (`query`, `sort_values`,
`drop_duplicates`, `head`) and never assigns to `self.frontier`, so the
state it returns is the state it received. -/
def fetch_next_doc_batch_method (cfg : Config) (s : CrawlerState) :
    List ScrapingRequest × CrawlerState :=
  (fetch_next_doc_batch cfg s.frontier, s)

/-- Case folding for the `re.IGNORECASE` matching of the source: ASCII
letters via `Char.toLower`, plus the one non-ASCII letter occurring in
the pattern (Ü → ü). -/
def lowerChar (c : Char) : Char :=
  if c = 'Ü' then 'ü' else c.toLower

/-- Decide whether `t` starts with `p` (character lists). -/
def startsWithChars : List Char → List Char → Bool
  | [], _ => true
  | _ :: _, [] => false
  | p :: ps, t :: ts => p == t && startsWithChars ps ts

/-- Decide whether `pat` occurs as a contiguous substring of `t`. -/
def containsSub (pat : List Char) : List Char → Bool
  | [] => startsWithChars pat []
  | c :: ts => startsWithChars pat (c :: ts) || containsSub pat ts

/-- Regular-expression search for
`TUBINGEN_PATTERN = t(ü|ue|u)binge(n|r)` with `re.IGNORECASE`: the
pattern's language is exactly six literal words, matched anywhere in
the case-folded text. -/
def tubingenMatch (s : String) : Bool :=
  let t := s.toList.map lowerChar
  ["tübingen", "tübinger", "tuebingen", "tuebinger", "tubingen",
    "tubinger"].any (fun p => containsSub p.toList t)

/-- ASCII whitespace stripped by Python `str.strip()`. -/
def isSpaceChar (c : Char) : Bool :=
  c == ' ' || c == '\t' || c == '\n' || c == '\r' || c == '\x0b' || c == '\x0c'

/-- Python `s.strip()` on a character list: drop whitespace from both
ends. -/
def stripChars (cs : List Char) : List Char :=
  ((cs.dropWhile isSpaceChar).reverse.dropWhile isSpaceChar).reverse

/-- Regular-expression search for
`ENGLISH_PATTERN = ^en([-_](us|gb|de))?$` with `re.IGNORECASE` against
one stripped `lang` attribute: an anchored match of one of seven
literal words, up to case. -/
def englishLang (lang : String) : Bool :=
  let t := String.mk ((stripChars lang.toList).map Char.toLower)
  ["en", "en-us", "en_us", "en-gb", "en_gb", "en-de", "en_de"].any
    (fun p => t == p)

/-- Crawler.is_english: some `//html/@lang` attribute matches the
English pattern. -/
def is_english (langs : List String) : Bool :=
  langs.any englishLang

/-- Observable content of a fetched HTTP response, through the lens the
crawler applies to it: final URL after redirects, the content-type
check `is_html`, the body size, and the parsed HTML tree's text
content, `//html/@lang` attributes and `//a/@href` attributes.  A body
that `lxml` fails to parse degrades to the empty tree (empty text, no
attributes), which these fields represent directly. -/
structure Resp where
  final_url : Url
  is_html : Bool
  size : Nat
  text : String
  langs : List String
  hrefs : List String

/-- Crawler.extract_url: parse the href (`none` on `InvalidURL`), join
onto the base URL when relative, clean, and keep only valid URLs. -/
def extract_url (ext : Ext) (cfg : Config) (s : String) (base : Url) :
    Option Url :=
  match ext.parseUrl s with
  | none => none
  | some u0 =>
      let u1 := if is_absolute_url u0 then u0 else ext.joinUrl base u0
      let u2 := clean_url u1
      if is_url_valid cfg u2 then some u2 else none

/-- Python `request.depth + 1` on a possibly-NaN cell. -/
def optSucc : Option Int → Option Int
  | some d => some (d + 1)
  | none => none

/-- The synthesized English-variant candidate
`response.url.copy_with(path="/en", query=None, fragment=None)`: same
origin, path replaced by /en, query and fragment dropped. -/
def english_variant (u : Url) : Url :=
  { u with path := "/en", query := none, fragment := none }

/-- The href loop of Crawler.add_new_links_to_frontier: feed every
successfully extracted link to add_to_frontier with the branch's
priority, `depth = request.depth + 1` and `root = request.root`.  The
index `i` threads the stream of `random.random()` draws. -/
def addLinks (ext : Ext) (cfg : Config) (req : ScrapingRequest)
    (base : Url) (priority : Priority) (now : Nat) (rskFn : Nat → Nat) :
    List String → Nat → Frontier → Frontier
  | [], _, f => f
  | href :: rest, i, f =>
      match extract_url ext cfg href base with
      | some u =>
          addLinks ext cfg req base priority now rskFn rest (i + 1)
            (add_to_frontier ext f u priority (optSucc req.depth) req.root
              now (rskFn i))
      | none => addLinks ext cfg req base priority now rskFn rest (i + 1) f

/-- Crawler.add_new_links_to_frontier: return unchanged when the text
has no Tübingen match; otherwise set the feature flags, on the
non-English branch propose the synthesized `/en` variant at high
priority when it validates, and finally feed every extracted link at
the branch priority. -/
def add_new_links_to_frontier (ext : Ext) (cfg : Config) (f : Frontier)
    (req : ScrapingRequest) (resp : Resp) (now : Nat) (rskFn : Nat → Nat) :
    Frontier :=
  if !tubingenMatch resp.text then f
  else if is_english resp.langs then
    let f1 := update_doc f req.doc_id
      { features_tubingen := some (some true)
        features_english := some (some true) } now
    addLinks ext cfg req resp.final_url Priority.high now rskFn resp.hrefs 0 f1
  else
    let f1 := update_doc f req.doc_id
      { features_tubingen := some (some true) } now
    let url_en : Url := english_variant resp.final_url
    let f2 :=
      if is_url_valid cfg url_en then
        add_to_frontier ext f1 url_en Priority.high (optSucc req.depth)
          req.root now (rskFn 0)
      else f1
    addLinks ext cfg req resp.final_url Priority.low now rskFn resp.hrefs 1 f2

/-- Attempt loop of the tenacity `retry(stop=stop_after_attempt(3),
wait=wait_exponential(min=1, max=10))` decorator on Crawler._get: the
i-th call of the wrapped coroutine either returns a response or raises
(timeout, network error, or `raise_for_status`), modelled by
`attemptResult i`.  Each failure consumes one attempt; when the
attempts are exhausted tenacity raises `RetryError`, modelled by
`none`.  The backoff sleeps between attempts do not touch the crawler
state. -/
def retryAttempts (attemptResult : Nat → Option Resp) :
    Nat → Nat → Option Resp
  | 0, _ => none
  | fuel + 1, i =>
      match attemptResult i with
      | some r => some r
      | none => retryAttempts attemptResult fuel (i + 1)

/-- Crawler.fetch_response: await `_get` and catch `tenacity.RetryError`
as `None`, so retry exhaustion yields `none` instead of an escaping
exception. -/
def fetch_response (attemptResult : Nat → Option Resp) : Option Resp :=
  retryAttempts attemptResult 3 0

/-- Handling of one (request, response) pair inside the batch loop of
Crawler._run: a missing, non-HTML or oversized response marks the
record failed; a good response is saved, classified via
add_new_links_to_frontier, and the record is marked completed with its
url/domain refreshed to the post-redirect URL. -/
def processRequest (ext : Ext) (cfg : Config) (f : Frontier)
    (req : ScrapingRequest) (res : Option Resp) (now : Nat)
    (rskFn : Nat → Nat) : Frontier :=
  match res with
  | none => update_doc f req.doc_id { status := some (some Status.failed) } now
  | some resp =>
      if !resp.is_html || decide (resp.size > cfg.max_filesize) then
        update_doc f req.doc_id { status := some (some Status.failed) } now
      else
        let f1 := add_new_links_to_frontier ext cfg f req resp now rskFn
        update_doc f1 req.doc_id
          { status := some (some Status.completed)
            url := some (some (urlToString resp.final_url))
            domain := some (some resp.final_url.host) } now

/-- One iteration of the while loop of Crawler._run: schedule a batch
from the current frontier, fetch all requests concurrently, then
process the outcomes strictly in the batch's original order.
`outs` lists the fetch outcomes (`none` = fetch_response gave None). -/
def processBatch (ext : Ext) (cfg : Config) (f : Frontier)
    (outs : List (Option Resp)) (now : Nat) (rskFn : Nat → Nat) : Frontier :=
  ((fetch_next_doc_batch cfg f).zip outs).foldl
    (fun acc p => processRequest ext cfg acc p.1 p.2 now rskFn) f

/-- The frontier after `n` iterations of the batch loop, with the fetch
outcomes of iteration `k` supplied by `oracle k`. -/
def runBatches (ext : Ext) (cfg : Config)
    (oracle : Nat → List (Option Resp)) (nowFn rskFn : Nat → Nat) :
    Nat → Frontier → Frontier
  | 0, f => f
  | n + 1, f =>
      processBatch ext cfg (runBatches ext cfg oracle nowFn rskFn n f)
        (oracle n) (nowFn n) rskFn

/-- One abstract `add_to_frontier` call, used to quantify over call
sequences. -/
structure AddCall where
  url : Url
  priority : Priority
  depth : Option Int
  root : Option String
  now : Nat
  rsk : Nat

/-- Apply a sequence of `add_to_frontier` calls in order. -/
def applyAddCalls (ext : Ext) (f : Frontier) (calls : List AddCall) : Frontier :=
  calls.foldl
    (fun acc c =>
      add_to_frontier ext acc c.url c.priority c.depth c.root c.now c.rsk) f

theorem flookup_append_of_none {f : Frontier} {d : String}
    (g : Frontier) (h : flookup f d = none) :
    flookup (f ++ g) d = flookup g d := by
  induction f with
  | nil => rfl
  | cons kr rest ih =>
      obtain ⟨k, r⟩ := kr
      by_cases hk : k = d
      · simp [flookup, hk] at h
      · simp only [List.cons_append, flookup, if_neg hk] at h ⊢
        exact ih h

theorem flookup_append_of_some {f : Frontier} {d : String} {r : Record}
    (g : Frontier) (h : flookup f d = some r) :
    flookup (f ++ g) d = some r := by
  induction f with
  | nil => simp [flookup] at h
  | cons kr rest ih =>
      obtain ⟨k, v⟩ := kr
      by_cases hk : k = d
      · simp only [flookup, if_pos hk] at h
        simp only [List.cons_append, flookup, if_pos hk, h]
      · simp only [flookup, if_neg hk] at h
        simp only [List.cons_append, flookup, if_neg hk]
        exact ih h

theorem flookup_singleton (k d : String) (r : Record) :
    flookup [(k, r)] d = if k = d then some r else none := by
  by_cases hk : k = d <;> simp [flookup, hk]

theorem flookup_map_keyed (f : Frontier) (k d : String) (t : Record → Record) :
    flookup (f.map fun kr => if kr.1 = k then (kr.1, t kr.2) else kr) d
      = if k = d then (flookup f d).map t else flookup f d := by
  induction f with
  | nil => by_cases hk : k = d <;> simp [flookup, hk]
  | cons kr rest ih =>
      obtain ⟨k0, r0⟩ := kr
      dsimp only [List.map_cons]
      by_cases h0 : k0 = k
      · subst h0
        rw [if_pos rfl]
        by_cases hk : k0 = d
        · subst hk
          simp [flookup, ih]
        · simp only [flookup, if_neg hk, ih]
      · rw [if_neg h0]
        by_cases hk : k0 = d
        · subst hk
          have hkk : ¬ k = k0 := fun h => h0 h.symm
          simp [flookup, if_neg hkk]
        · simp only [flookup, if_neg hk, ih]

theorem flookup_eq_none_iff {f : Frontier} {d : String} :
    flookup f d = none ↔ d ∉ f.map Prod.fst := by
  induction f with
  | nil => simp [flookup]
  | cons kr rest ih =>
      obtain ⟨k, r⟩ := kr
      simp only [List.map_cons, List.mem_cons]
      by_cases hk : k = d
      · subst hk
        simp [flookup]
      · simp only [flookup, if_neg hk, ih]
        constructor
        · intro h hm
          rcases hm with hm | hm
          · exact hk hm.symm
          · exact h hm
        · intro h hm
          exact h (Or.inr hm)

theorem flookup_of_mem {f : Frontier} {k : String} {v : Record}
    (hwf : WF f) (h : (k, v) ∈ f) : flookup f k = some v := by
  induction f with
  | nil => simp at h
  | cons kr rest ih =>
      obtain ⟨k0, r0⟩ := kr
      rcases List.mem_cons.1 h with h1 | h1
      · injection h1 with h1a h1b
        subst h1a
        subst h1b
        simp [flookup]
      · have hk0 : k0 ≠ k := by
          intro he
          subst he
          have hnm : k0 ∉ rest.map Prod.fst := (List.nodup_cons.1 hwf).1
          exact hnm (List.mem_map.2 ⟨(k0, v), h1, rfl⟩)
        simp only [flookup, if_neg hk0]
        exact ih (List.nodup_cons.1 hwf).2 h1

theorem mem_of_flookup {f : Frontier} {k : String} {v : Record}
    (h : flookup f k = some v) : (k, v) ∈ f := by
  induction f with
  | nil => simp [flookup] at h
  | cons kr rest ih =>
      obtain ⟨k0, r0⟩ := kr
      by_cases hk : k0 = k
      · subst hk
        simp [flookup] at h
        exact List.mem_cons.2 (Or.inl (by simp [h]))
      · simp only [flookup, if_neg hk] at h
        exact List.mem_cons.2 (Or.inr (ih h))

theorem update_doc_flookup_ne (f : Frontier) (k : String) (u : Upd)
    (now : Nat) {d : String} (hne : d ≠ k) :
    flookup (update_doc f k u now) d = flookup f d := by
  unfold update_doc
  rcases hk : flookup f k with _ | entry
  · simp only
    rcases hd : flookup f d with _ | r
    · rw [flookup_append_of_none _ hd, flookup_singleton, if_neg (fun h => hne h.symm)]
    · exact flookup_append_of_some _ hd
  · simp only
    rw [flookup_map_keyed f k d, if_neg (fun h => hne h.symm)]

theorem update_doc_flookup_self (f : Frontier) (k : String) (u : Upd)
    (now : Nat) :
    flookup (update_doc f k u now) k
      = some (applyUpd { u with updated := some (some now) }
          ((flookup f k).getD emptyRecord)) := by
  unfold update_doc
  rcases hk : flookup f k with _ | entry
  · simp only
    rw [flookup_append_of_none _ hk, flookup_singleton, if_pos rfl]
    simp [hk]
  · simp only
    rw [flookup_map_keyed f k k, if_pos rfl]
    simp [hk]

theorem update_doc_status_self (f : Frontier) (k : String) (u : Upd)
    (now : Nat) {c : Option Status} (hc : u.status = some c) :
    ∃ r', flookup (update_doc f k u now) k = some r' ∧ r'.status = c := by
  refine ⟨_, update_doc_flookup_self f k u now, ?_⟩
  simp [applyUpd, hc]

theorem pyLT_self (a : Option Int) : pyLT a a = false := by
  cases a <;> simp [pyLT]

theorem pyGT_self (a : Option Int) : pyGT a a = false := by
  cases a <;> simp [pyGT, pyLT]

theorem pyMin_some_le (x : Int) (b : Option Int) :
    ∃ y, pyMin (some x) b = some y ∧ y ≤ x := by
  cases b with
  | none => exact ⟨x, by simp [pyMin, pyLT], le_refl x⟩
  | some v =>
      by_cases hv : v < x
      · exact ⟨v, by simp [pyMin, pyLT, hv], le_of_lt hv⟩
      · exact ⟨x, by simp [pyMin, pyLT, hv], le_refl x⟩

theorem pyMax_some_ge (x v : Int) :
    ∃ y, pyMax (some x) (some v) = some y ∧ x ≤ y := by
  by_cases hv : x < v
  · exact ⟨v, by simp [pyMax, pyGT, pyLT, hv], le_of_lt hv⟩
  · exact ⟨x, by simp [pyMax, pyGT, pyLT, hv], le_refl x⟩

/-- Equality of every record field that add_to_frontier never writes on
an existing row (everything except depth, priority, updated). -/
def EqOutsideSched (r r' : Record) : Prop :=
  r'.url = r.url ∧ r'.domain = r.domain ∧ r'.main_domain = r.main_domain
    ∧ r'.status = r.status ∧ r'.created = r.created ∧ r'.root = r.root
    ∧ r'.random_sort_key = r.random_sort_key
    ∧ r'.features_tubingen = r.features_tubingen
    ∧ r'.features_english = r.features_english

theorem EqOutsideSched.refl (r : Record) : EqOutsideSched r r :=
  ⟨rfl, rfl, rfl, rfl, rfl, rfl, rfl, rfl, rfl⟩

theorem EqOutsideSched.trans {a b c : Record}
    (h1 : EqOutsideSched a b) (h2 : EqOutsideSched b c) :
    EqOutsideSched a c := by
  obtain ⟨e1, e2, e3, e4, e5, e6, e7, e8, e9⟩ := h1
  obtain ⟨g1, g2, g3, g4, g5, g6, g7, g8, g9⟩ := h2
  exact ⟨g1.trans e1, g2.trans e2, g3.trans e3, g4.trans e4, g5.trans e5,
    g6.trans e6, g7.trans e7, g8.trans e8, g9.trans e9⟩

theorem add_to_frontier_insert {ext : Ext} {f : Frontier} {url : Url}
    (p : Priority) (dep : Option Int) (root : Option String) (now rsk : Nat)
    (ht : flookup f (create_id_for_url ext url) = none) :
    add_to_frontier ext f url p dep root now rsk
      = f ++ [(create_id_for_url ext url, newRecord url p dep root now rsk)] := by
  simp only [add_to_frontier, ht]

theorem add_to_frontier_improve {ext : Ext} {f : Frontier} {url : Url}
    {entry : Record} (p : Priority) (dep : Option Int) (root : Option String)
    (now rsk : Nat)
    (ht : flookup f (create_id_for_url ext url) = some entry)
    (hc : (decide (entry.status = some Status.pending)
      && (pyGT entry.depth dep || pyLT entry.priority (some p.value))) = true) :
    add_to_frontier ext f url p dep root now rsk
      = update_doc f (create_id_for_url ext url)
          { depth := some (pyMin entry.depth dep)
            priority := some (pyMax entry.priority (some p.value)) } now := by
  simp only [add_to_frontier, ht, hc, if_true]

theorem add_to_frontier_noop {ext : Ext} {f : Frontier} {url : Url}
    {entry : Record} (p : Priority) (dep : Option Int) (root : Option String)
    (now rsk : Nat)
    (ht : flookup f (create_id_for_url ext url) = some entry)
    (hc : (decide (entry.status = some Status.pending)
      && (pyGT entry.depth dep || pyLT entry.priority (some p.value))) = false) :
    add_to_frontier ext f url p dep root now rsk = f := by
  simp only [add_to_frontier, ht, hc, Bool.false_eq_true, if_false]

theorem add_flookup_ne (ext : Ext) (f : Frontier) (url : Url)
    (p : Priority) (dep : Option Int) (root : Option String) (now rsk : Nat)
    {d : String} (hne : d ≠ create_id_for_url ext url) :
    flookup (add_to_frontier ext f url p dep root now rsk) d = flookup f d := by
  rcases ht : flookup f (create_id_for_url ext url) with _ | entry
  · rw [add_to_frontier_insert p dep root now rsk ht]
    rcases hd : flookup f d with _ | r
    · rw [flookup_append_of_none _ hd, flookup_singleton,
        if_neg (fun h => hne h.symm)]
    · exact flookup_append_of_some _ hd
  · rcases hc : decide (entry.status = some Status.pending)
        && (pyGT entry.depth dep || pyLT entry.priority (some p.value)) with _ | _
    · rw [add_to_frontier_noop p dep root now rsk ht hc]
    · rw [add_to_frontier_improve p dep root now rsk ht hc]
      exact update_doc_flookup_ne f _ _ now hne

theorem add_flookup_none (ext : Ext) (f : Frontier) (url : Url)
    (p : Priority) (dep : Option Int) (root : Option String) (now rsk : Nat)
    {d : String} (hd : flookup f d = none) :
    flookup (add_to_frontier ext f url p dep root now rsk) d
      = if create_id_for_url ext url = d
        then some (newRecord url p dep root now rsk) else none := by
  by_cases he : create_id_for_url ext url = d
  · subst he
    rw [if_pos rfl, add_to_frontier_insert p dep root now rsk hd,
      flookup_append_of_none _ hd, flookup_singleton, if_pos rfl]
  · rw [if_neg he, add_flookup_ne ext f url p dep root now rsk
      (fun h => he h.symm), hd]

theorem add_flookup_some (ext : Ext) (f : Frontier) (url : Url)
    (p : Priority) (dep : Option Int) (root : Option String) (now rsk : Nat)
    {d : String} {r : Record} (hd : flookup f d = some r) :
    ∃ r', flookup (add_to_frontier ext f url p dep root now rsk) d = some r'
      ∧ EqOutsideSched r r' := by
  by_cases he : create_id_for_url ext url = d
  · subst he
    rcases hc : decide (r.status = some Status.pending)
        && (pyGT r.depth dep || pyLT r.priority (some p.value)) with _ | _
    · rw [add_to_frontier_noop p dep root now rsk hd hc]
      exact ⟨r, hd, EqOutsideSched.refl r⟩
    · rw [add_to_frontier_improve p dep root now rsk hd hc,
        update_doc_flookup_self, hd]
      exact ⟨_, rfl, by constructor <;> simp [applyUpd]⟩
  · rw [add_flookup_ne ext f url p dep root now rsk (fun h => he h.symm)]
    exact ⟨r, hd, EqOutsideSched.refl r⟩

theorem add_flookup_stable (ext : Ext) (f : Frontier) (url : Url)
    (p : Priority) (dep : Option Int) (root : Option String) (now rsk : Nat)
    {d : String} {r : Record} (hd : flookup f d = some r)
    (hdep : pyGT r.depth dep = false)
    (hpri : pyLT r.priority (some p.value) = false) :
    flookup (add_to_frontier ext f url p dep root now rsk) d = some r := by
  by_cases he : create_id_for_url ext url = d
  · subst he
    rw [add_to_frontier_noop p dep root now rsk hd (by rw [hdep, hpri]; simp)]
    exact hd
  · rw [add_flookup_ne ext f url p dep root now rsk (fun h => he h.symm)]
    exact hd

theorem add_pending_monotone (ext : Ext) (f : Frontier) (url : Url)
    (p : Priority) (dep2 : Option Int) (root : Option String) (now rsk : Nat)
    {d : String} {r : Record} {dep pri : Int} (hd : flookup f d = some r)
    (hp : r.status = some Status.pending) (hdep : r.depth = some dep)
    (hpri : r.priority = some pri) :
    ∃ r' dep' pri',
      flookup (add_to_frontier ext f url p dep2 root now rsk) d = some r'
        ∧ r'.status = some Status.pending ∧ r'.depth = some dep'
        ∧ r'.priority = some pri' ∧ dep' ≤ dep ∧ pri ≤ pri' := by
  by_cases he : create_id_for_url ext url = d
  · subst he
    rcases hc : decide (r.status = some Status.pending)
        && (pyGT r.depth dep2 || pyLT r.priority (some p.value)) with _ | _
    · rw [add_to_frontier_noop p dep2 root now rsk hd hc]
      exact ⟨r, dep, pri, hd, hp, hdep, hpri, le_refl dep, le_refl pri⟩
    · rw [add_to_frontier_improve p dep2 root now rsk hd hc,
        update_doc_flookup_self, hd]
      obtain ⟨dm, hdm, hdmle⟩ := pyMin_some_le dep dep2
      obtain ⟨pm, hpm, hpmge⟩ := pyMax_some_ge pri p.value
      refine ⟨_, dm, pm, rfl, ?_, ?_, ?_, hdmle, hpmge⟩
      · simp [applyUpd, hp]
      · simp [applyUpd, hdep ▸ hdm]
      · simp [applyUpd, hpri ▸ hpm]
  · rw [add_flookup_ne ext f url p dep2 root now rsk (fun h => he h.symm)]
    exact ⟨r, dep, pri, hd, hp, hdep, hpri, le_refl dep, le_refl pri⟩

theorem applyAddCalls_monotone (ext : Ext) (calls : List AddCall) :
    ∀ f d r dep pri, flookup f d = some r →
      r.status = some Status.pending → r.depth = some dep →
      r.priority = some pri →
      ∃ r' dep' pri', flookup (applyAddCalls ext f calls) d = some r'
        ∧ r'.status = some Status.pending ∧ r'.depth = some dep'
        ∧ r'.priority = some pri' ∧ dep' ≤ dep ∧ pri ≤ pri' := by
  induction calls with
  | nil =>
      intro f d r dep pri h1 h2 h3 h4
      exact ⟨r, dep, pri, h1, h2, h3, h4, le_refl _, le_refl _⟩
  | cons c rest ih =>
      intro f d r dep pri h1 h2 h3 h4
      obtain ⟨r1, dep1, pri1, g1, g2, g3, g4, g5, g6⟩ :=
        add_pending_monotone ext f c.url c.priority c.depth c.root c.now
          c.rsk h1 h2 h3 h4
      obtain ⟨r', dep', pri', k1, k2, k3, k4, k5, k6⟩ :=
        ih _ d r1 dep1 pri1 g1 g2 g3 g4
      exact ⟨r', dep', pri', k1, k2, k3, k4, le_trans k5 g5, le_trans g6 k6⟩

/-- Two URLs that differ at most in query string, fragment, or
(query) parameters: every other component agrees. -/
def differOnlyInQueryFragmentParams (u1 u2 : Url) : Prop :=
  u1.scheme = u2.scheme ∧ u1.userinfo = u2.userinfo ∧ u1.host = u2.host
    ∧ u1.port = u2.port ∧ u1.path = u2.path

/-- Claim C9: URL canonicalization (clean_url) is idempotent —
`canonicalize(canonicalize(u)) = canonicalize(u)` for every URL, where
canonicalization strips query string, fragment, and parameters. -/
theorem claim_C9_canonicalize_idempotent (u : Url) :
    clean_url (clean_url u) = clean_url u := rfl

/-- Claim C8: fingerprint determinism — whenever two URLs differ only in
query string, fragment, or parameters, they canonicalize identically
and therefore `fingerprint(canonicalize(u1)) =
fingerprint(canonicalize(u2))` for the md5-based
create_id_for_url; moreover equal canonical URLs always yield equal
doc_ids. -/
theorem claim_C8_fingerprint_determinism (ext : Ext) (u1 u2 : Url)
    (h : differOnlyInQueryFragmentParams u1 u2) :
    clean_url u1 = clean_url u2
      ∧ create_id_for_url ext (clean_url u1)
          = create_id_for_url ext (clean_url u2)
      ∧ ∀ v1 v2 : Url, clean_url v1 = clean_url v2 →
          create_id_for_url ext (clean_url v1)
            = create_id_for_url ext (clean_url v2) := by
  obtain ⟨h1, h2, h3, h4, h5⟩ := h
  have hcl : clean_url u1 = clean_url u2 := by
    cases u1
    cases u2
    simp only [clean_url] at h1 h2 h3 h4 h5 ⊢
    simp_all
  exact ⟨hcl, by rw [hcl], fun v1 v2 hv => by rw [hv]⟩

/-- Concrete external environment for witnesses: the identity as hash
function, a parser that rejects every raw string, and a join that keeps
the base. -/
def extId : Ext :=
  { hash := fun s => s, parseUrl := fun _ => none, joinUrl := fun b _ => b }

/-- Concrete URL with query and fragment, for witnesses. -/
def u1W : Url :=
  { scheme := "https", userinfo := "", host := "example.com", port := none
    path := "/a", query := some "x=1", fragment := some "sec" }

/-- The same URL without query and fragment. -/
def u2W : Url :=
  { scheme := "https", userinfo := "", host := "example.com", port := none
    path := "/a", query := none, fragment := none }

theorem claim_C8_witness :
    differOnlyInQueryFragmentParams u1W u2W
      ∧ (clean_url u1W = clean_url u2W
        ∧ create_id_for_url extId (clean_url u1W)
            = create_id_for_url extId (clean_url u2W)
        ∧ ∀ v1 v2 : Url, clean_url v1 = clean_url v2 →
            create_id_for_url extId (clean_url v1)
              = create_id_for_url extId (clean_url v2)) :=
  ⟨⟨rfl, rfl, rfl, rfl, rfl⟩,
    claim_C8_fingerprint_determinism extId u1W u2W ⟨rfl, rfl, rfl, rfl, rfl⟩⟩

/-- Claim C2, counterexample: updating a doc_id absent from the frontier
is not a no-op — on the empty frontier, update_doc("x", ...) returns a
changed store (pandas setting-with-enlargement inserts a row). -/
theorem claim_C2_counterexample :
    update_doc ([] : Frontier) "x" {} 0 ≠ ([] : Frontier) := by decide

/-- Claim C2 as amended: for a doc_id absent from the frontier store,
update (update_doc) raises nothing, but instead of leaving the store
unchanged it appends exactly one new row keyed by that doc_id whose
cells are the supplied fields plus the refreshed `updated` timestamp,
every other cell missing (NaN). -/
theorem claim_C2_amended (f : Frontier) (d : String) (u : Upd) (now : Nat)
    (h : flookup f d = none) :
    update_doc f d u now
      = f ++ [(d, applyUpd { u with updated := some (some now) } emptyRecord)] := by
  simp only [update_doc, h]

theorem claim_C2_witness :
    flookup ([] : Frontier) "x" = none
      ∧ update_doc ([] : Frontier) "x" {} 0
        = [] ++ [("x", applyUpd { ({} : Upd) with updated := some (some 0) }
            emptyRecord)] :=
  ⟨rfl, claim_C2_amended [] "x" {} 0 rfl⟩

/-- Claim C3: monotonic priority/depth — on a still-pending record, an
add_or_improve (add_to_frontier) call targeting it is a no-op unless
the proposal is strictly better (smaller depth or higher priority), in
which case the stored depth becomes the minimum and the stored priority
the maximum of old and new; consequently, across any sequence of
add_or_improve calls the stored depth never increases and the stored
priority never decreases, and the record stays pending. -/
theorem claim_C3_monotonic_priority_depth (ext : Ext) (f : Frontier)
    (d : String) (r : Record) (dep0 pri0 : Int)
    (hr : flookup f d = some r) (hp : r.status = some Status.pending)
    (hd : r.depth = some dep0) (hpri : r.priority = some pri0) :
    (∀ url p dep root now rsk, create_id_for_url ext url = d →
        (pyGT (some dep0) dep || pyLT (some pri0) (some (Priority.value p)))
            = false →
        add_to_frontier ext f url p dep root now rsk = f)
    ∧ (∀ url p dep root now rsk, create_id_for_url ext url = d →
        (pyGT (some dep0) dep || pyLT (some pri0) (some (Priority.value p)))
            = true →
        flookup (add_to_frontier ext f url p dep root now rsk) d
          = some { r with depth := pyMin (some dep0) dep
                          priority := pyMax (some pri0) (some (Priority.value p))
                          updated := some now })
    ∧ (∀ calls : List AddCall, ∃ r' dep' pri',
        flookup (applyAddCalls ext f calls) d = some r'
          ∧ r'.status = some Status.pending
          ∧ r'.depth = some dep' ∧ r'.priority = some pri'
          ∧ dep' ≤ dep0 ∧ pri0 ≤ pri') := by
  refine ⟨?_, ?_, ?_⟩
  · intro url p dep root now rsk he hcond
    have ht : flookup f (create_id_for_url ext url) = some r := by rw [he, hr]
    exact add_to_frontier_noop p dep root now rsk ht
      (by rw [hd, hpri, hp]; simp [hcond])
  · intro url p dep root now rsk he hcond
    have ht : flookup f (create_id_for_url ext url) = some r := by rw [he, hr]
    have hc : (decide (r.status = some Status.pending)
        && (pyGT r.depth dep || pyLT r.priority (some (Priority.value p))))
          = true := by
      rw [hd, hpri, hp, hcond]
      simp
    rw [← he, add_to_frontier_improve p dep root now rsk ht hc,
      update_doc_flookup_self, ht]
    simp only [Option.getD_some, Option.some.injEq]
    simp [applyUpd, hd, hpri]
  · intro calls
    exact applyAddCalls_monotone ext calls f d r dep0 pri0 hr hp hd hpri

/-- Concrete pending record for witnesses. -/
def recW : Record :=
  { url := some "http://example.com/a", domain := some "example.com"
    main_domain := some "example.com", depth := some 2, priority := some 0
    status := some Status.pending, created := some 0, updated := some 0
    root := some "seed", random_sort_key := some 5
    features_tubingen := some false, features_english := some false }

/-- One-row frontier holding `recW` under doc_id "docA". -/
def fW : Frontier := [("docA", recW)]

/-- Concrete add_or_improve call proposing a strictly better entry. -/
def callW : AddCall :=
  { url := u2W, priority := Priority.high, depth := some 1
    root := some "seed", now := 7, rsk := 9 }

theorem claim_C3_witness :
    flookup fW "docA" = some recW
      ∧ recW.status = some Status.pending
      ∧ recW.depth = some 2 ∧ recW.priority = some 0
      ∧ (∃ r' dep' pri',
          flookup (applyAddCalls extId fW [callW]) "docA" = some r'
            ∧ r'.status = some Status.pending
            ∧ r'.depth = some dep' ∧ r'.priority = some pri'
            ∧ dep' ≤ 2 ∧ 0 ≤ pri') :=
  ⟨rfl, rfl, rfl, rfl,
    (claim_C3_monotonic_priority_depth extId fW "docA" recW 2 0 rfl rfl rfl
      rfl).2.2 [callW]⟩

theorem dropDupMd_sublist (l : Frontier) :
    ∀ seen, (dropDupMd seen l).Sublist l := by
  induction l with
  | nil => intro seen; simp [dropDupMd]
  | cons kr rest ih =>
      intro seen
      by_cases hm : kr.2.main_domain ∈ seen
      · simp only [dropDupMd, if_pos hm]
        exact (ih seen).cons kr
      · simp only [dropDupMd, if_neg hm]
        exact (ih _).cons₂ kr

theorem dropDupMd_not_mem_seen (l : Frontier) :
    ∀ seen x, x ∈ dropDupMd seen l → x.2.main_domain ∉ seen := by
  induction l with
  | nil => intro seen x hx; simp [dropDupMd] at hx
  | cons kr rest ih =>
      intro seen x hx
      by_cases hm : kr.2.main_domain ∈ seen
      · simp only [dropDupMd, if_pos hm] at hx
        exact ih seen x hx
      · simp only [dropDupMd, if_neg hm] at hx
        rcases List.mem_cons.1 hx with hx' | hx'
        · subst hx'
          exact hm
        · have hni := ih _ x hx'
          intro hs
          exact hni (List.mem_cons.2 (Or.inr hs))

theorem dropDupMd_pairwise (l : Frontier) :
    ∀ seen, (dropDupMd seen l).Pairwise
      (fun a b => a.2.main_domain ≠ b.2.main_domain) := by
  induction l with
  | nil => intro seen; simp [dropDupMd]
  | cons kr rest ih =>
      intro seen
      by_cases hm : kr.2.main_domain ∈ seen
      · simp only [dropDupMd, if_pos hm]
        exact ih seen
      · simp only [dropDupMd, if_neg hm]
        refine List.Pairwise.cons ?_ (ih _)
        intro y hy he
        exact dropDupMd_not_mem_seen rest _ y hy
          (by rw [← he]; exact List.mem_cons_self _ _)

theorem pyLTc_true_iff (a : Option Int) (bound : Int) :
    pyLTc a bound = true ↔ ∃ v, a = some v ∧ v < bound := by
  cases a <;> simp [pyLTc]

theorem batchRows_sublist (cfg : Config) (f : Frontier) :
    (batchRows cfg f).Sublist (sortedRows cfg f) :=
  (List.take_sublist _ _).trans (dropDupMd_sublist _ [])

theorem mem_batchRows (cfg : Config) (f : Frontier) {x : String × Record}
    (hx : x ∈ batchRows cfg f) :
    x ∈ f ∧ x.2.status = some Status.pending
      ∧ ∃ dv, x.2.depth = some dv ∧ dv < cfg.max_depth := by
  have hs : x ∈ sortedRows cfg f := (batchRows_sublist cfg f).subset hx
  have he : x ∈ eligibleRows cfg f :=
    (List.perm_insertionSort rowLE (eligibleRows cfg f)).subset hs
  obtain ⟨hmem, hpred⟩ := List.mem_filter.1 he
  obtain ⟨hst, hdp⟩ := Bool.and_eq_true .. |>.mp hpred
  obtain ⟨dv, hdv, hlt⟩ := (pyLTc_true_iff _ _).1 hdp
  exact ⟨hmem, of_decide_eq_true hst, dv, hdv, hlt⟩

/-- Claim C10 (implicit frame condition): computing the next batch
(fetch_next_doc_batch) is a pure read of the frontier store — it
performs no improvement and no field mutation on any record, so the
crawler state (and every record lookup in it) is exactly what it was,
and the returned list is a function of the frontier alone. -/
theorem claim_C10_next_batch_pure_read (cfg : Config) (s : CrawlerState) :
    (fetch_next_doc_batch_method cfg s).2 = s
      ∧ (fetch_next_doc_batch_method cfg s).2.frontier = s.frontier
      ∧ (∀ d, flookup (fetch_next_doc_batch_method cfg s).2.frontier d
          = flookup s.frontier d)
      ∧ (fetch_next_doc_batch_method cfg s).1
          = fetch_next_doc_batch cfg s.frontier :=
  ⟨rfl, rfl, fun _ => rfl, rfl⟩

/-- Claim C4: scheduler postcondition — the batch is the image of the
query → sort → drop_duplicates → head pipeline; its length is at most
batch_size; every request comes from a record of the store that is
pending with depth < max_depth (and carries that record's url, root and
depth cells); the surviving rows are pairwise distinct in main_domain;
and they appear in (priority desc, depth asc, random_sort_key asc)
order, the order established before dedup and truncation. -/
theorem claim_C4_scheduler_postcondition (cfg : Config) (f : Frontier)
    (hwf : WF f) :
    fetch_next_doc_batch cfg f = (batchRows cfg f).map toReq
      ∧ (fetch_next_doc_batch cfg f).length ≤ cfg.batch_size
      ∧ (∀ req ∈ fetch_next_doc_batch cfg f, ∃ r dv,
          flookup f req.doc_id = some r ∧ r.status = some Status.pending
            ∧ r.depth = some dv ∧ dv < cfg.max_depth
            ∧ req.url = r.url ∧ req.root = r.root ∧ req.depth = r.depth)
      ∧ (batchRows cfg f).Pairwise
          (fun a b => a.2.main_domain ≠ b.2.main_domain)
      ∧ (batchRows cfg f).Pairwise rowLE := by
  refine ⟨rfl, ?_, ?_, ?_, ?_⟩
  · rw [fetch_next_doc_batch, List.length_map, batchRows, List.length_take]
    exact min_le_left _ _
  · intro req hreq
    obtain ⟨kr, hkr, hto⟩ := List.mem_map.1 hreq
    obtain ⟨hmem, hst, dv, hdv, hlt⟩ := mem_batchRows cfg f hkr
    obtain ⟨k, r⟩ := kr
    have hl : flookup f k = some r := flookup_of_mem hwf hmem
    subst hto
    exact ⟨r, dv, hl, hst, hdv, hlt, rfl, rfl, rfl⟩
  · exact (dropDupMd_pairwise _ []).sublist (List.take_sublist _ _)
  · exact List.Pairwise.sublist (batchRows_sublist cfg f)
      (List.sorted_insertionSort rowLE (eligibleRows cfg f))

/-- Concrete configuration for witnesses. -/
def cfgW : Config :=
  { batch_size := 8, max_depth := 10, max_filesize := 100
    denied_domains := [] }

/-- A completed record on a second main_domain, for witnesses. -/
def recW2 : Record :=
  { recW with main_domain := some "other.org"
              status := some Status.completed
              random_sort_key := some 1 }

/-- Two-row frontier with one pending and one completed record. -/
def fW2 : Frontier := [("docA", recW), ("docB", recW2)]

theorem claim_C4_witness :
    WF fW2
      ∧ (fetch_next_doc_batch cfgW fW2 = (batchRows cfgW fW2).map toReq
        ∧ (fetch_next_doc_batch cfgW fW2).length ≤ cfgW.batch_size
        ∧ (∀ req ∈ fetch_next_doc_batch cfgW fW2, ∃ r dv,
            flookup fW2 req.doc_id = some r ∧ r.status = some Status.pending
              ∧ r.depth = some dv ∧ dv < cfgW.max_depth
              ∧ req.url = r.url ∧ req.root = r.root ∧ req.depth = r.depth)
        ∧ (batchRows cfgW fW2).Pairwise
            (fun a b => a.2.main_domain ≠ b.2.main_domain)
        ∧ (batchRows cfgW fW2).Pairwise rowLE) :=
  ⟨by decide, claim_C4_scheduler_postcondition cfgW fW2 (by decide)⟩

theorem add_new_links_no_match (ext : Ext) (cfg : Config) (f : Frontier)
    (req : ScrapingRequest) (resp : Resp) (now : Nat) (rskFn : Nat → Nat)
    (h : tubingenMatch resp.text = false) :
    add_new_links_to_frontier ext cfg f req resp now rskFn = f := by
  simp [add_new_links_to_frontier, h]

theorem update_doc_length_present {f : Frontier} {k : String} {r : Record}
    (u : Upd) (now : Nat) (h : flookup f k = some r) :
    (update_doc f k u now).length = f.length := by
  simp only [update_doc, h]
  exact List.length_map ..

theorem processRequest_good {resp : Resp} {cfg : Config}
    (ext : Ext) (f : Frontier) (req : ScrapingRequest) (now : Nat)
    (rskFn : Nat → Nat) (hh : resp.is_html = true)
    (hs : decide (resp.size > cfg.max_filesize) = false) :
    processRequest ext cfg f req (some resp) now rskFn
      = update_doc (add_new_links_to_frontier ext cfg f req resp now rskFn)
          req.doc_id
          { status := some (some Status.completed)
            url := some (some (urlToString resp.final_url))
            domain := some (some resp.final_url.host) } now := by
  simp [processRequest, hh, hs]

/-- Claim C5: dead-end pruning — when the fetched page's extracted text
has no match for the topic-relevance pattern, the classifier adds zero
new entries to the frontier (it returns the store unchanged, so no
links are discovered), and processing the response in the run loop
leaves the store's size unchanged and marks the fetched record
completed. -/
theorem claim_C5_dead_end_pruning (ext : Ext) (cfg : Config) (f : Frontier)
    (req : ScrapingRequest) (resp : Resp) (now : Nat) (rskFn : Nat → Nat)
    (r0 : Record) (hr0 : flookup f req.doc_id = some r0)
    (htub : tubingenMatch resp.text = false) (hh : resp.is_html = true)
    (hs : resp.size ≤ cfg.max_filesize) :
    add_new_links_to_frontier ext cfg f req resp now rskFn = f
      ∧ (processRequest ext cfg f req (some resp) now rskFn).length = f.length
      ∧ ∃ r', flookup (processRequest ext cfg f req (some resp) now rskFn)
            req.doc_id = some r' ∧ r'.status = some Status.completed := by
  have hnil := add_new_links_no_match ext cfg f req resp now rskFn htub
  have hsz : decide (resp.size > cfg.max_filesize) = false :=
    decide_eq_false (not_lt.2 hs)
  have hpr := processRequest_good ext f req now rskFn hh hsz
  refine ⟨hnil, ?_, ?_⟩
  · rw [hpr, hnil]
    exact update_doc_length_present _ now hr0
  · rw [hpr]
    exact update_doc_status_self _ _ _ _ rfl

/-- Concrete response with no relevance match, for the C5 witness. -/
def respW : Resp :=
  { final_url := u2W, is_html := true, size := 10
    text := "nothing about the town here", langs := ["de"]
    hrefs := ["http://example.com/b"] }

/-- Concrete scraping request for the row "docA" of `fW`. -/
def reqW : ScrapingRequest :=
  { doc_id := "docA", url := some "http://example.com/a"
    root := some "seed", depth := some 2 }

theorem claim_C5_witness :
    flookup fW reqW.doc_id = some recW
      ∧ tubingenMatch respW.text = false
      ∧ respW.is_html = true
      ∧ respW.size ≤ cfgW.max_filesize
      ∧ (add_new_links_to_frontier extId cfgW fW reqW respW 3 (fun i => i) = fW
        ∧ (processRequest extId cfgW fW reqW (some respW) 3 (fun i => i)).length
            = fW.length
        ∧ ∃ r', flookup (processRequest extId cfgW fW reqW (some respW) 3
              (fun i => i)) reqW.doc_id = some r'
            ∧ r'.status = some Status.completed) :=
  ⟨rfl, by decide, rfl, by decide,
    claim_C5_dead_end_pruning extId cfgW fW reqW respW 3 (fun i => i) recW
      rfl (by decide) rfl (by decide)⟩

theorem addLinks_eqOutsideSched (ext : Ext) (cfg : Config)
    (req : ScrapingRequest) (base : Url) (p : Priority) (now : Nat)
    (rskFn : Nat → Nat) (hrefs : List String) :
    ∀ i f d r, flookup f d = some r →
      ∃ r', flookup (addLinks ext cfg req base p now rskFn hrefs i f) d
          = some r' ∧ EqOutsideSched r r' := by
  induction hrefs with
  | nil => intro i f d r h; exact ⟨r, h, EqOutsideSched.refl r⟩
  | cons href rest ih =>
      intro i f d r h
      rcases hx : extract_url ext cfg href base with _ | u
      · simp only [addLinks, hx]
        exact ih _ f d r h
      · simp only [addLinks, hx]
        obtain ⟨r1, h1, e1⟩ := add_flookup_some ext f u p (optSucc req.depth)
          req.root now (rskFn i) h
        obtain ⟨r', h', e'⟩ := ih _ _ d r1 h1
        exact ⟨r', h', e1.trans e'⟩

theorem addLinks_stable (ext : Ext) (cfg : Config) (req : ScrapingRequest)
    (base : Url) (p : Priority) (now : Nat) (rskFn : Nat → Nat)
    (hrefs : List String) :
    ∀ i f d r, flookup f d = some r →
      pyGT r.depth (optSucc req.depth) = false →
      pyLT r.priority (some p.value) = false →
      flookup (addLinks ext cfg req base p now rskFn hrefs i f) d = some r := by
  induction hrefs with
  | nil => intro i f d r h _ _; exact h
  | cons href rest ih =>
      intro i f d r h hdep hpri
      rcases hx : extract_url ext cfg href base with _ | u
      · simp only [addLinks, hx]
        exact ih _ f d r h hdep hpri
      · simp only [addLinks, hx]
        exact ih _ _ d r
          (add_flookup_stable ext f u p (optSucc req.depth) req.root now
            (rskFn i) h hdep hpri) hdep hpri

theorem addLinks_new (ext : Ext) (cfg : Config) (req : ScrapingRequest)
    (base : Url) (p : Priority) (now : Nat) (rskFn : Nat → Nat)
    (hrefs : List String) :
    ∀ i f d, flookup f d = none →
      flookup (addLinks ext cfg req base p now rskFn hrefs i f) d = none
      ∨ ∃ r', flookup (addLinks ext cfg req base p now rskFn hrefs i f) d
            = some r'
          ∧ r'.status = some Status.pending ∧ r'.priority = some p.value
          ∧ r'.depth = optSucc req.depth ∧ r'.root = req.root := by
  induction hrefs with
  | nil => intro i f d h; exact Or.inl h
  | cons href rest ih =>
      intro i f d h
      rcases hx : extract_url ext cfg href base with _ | u
      · simp only [addLinks, hx]
        exact ih _ f d h
      · simp only [addLinks, hx]
        by_cases he : create_id_for_url ext u = d
        · have hnew : flookup (add_to_frontier ext f u p (optSucc req.depth)
              req.root now (rskFn i)) d
              = some (newRecord u p (optSucc req.depth) req.root now (rskFn i)) := by
            rw [add_flookup_none ext f u p (optSucc req.depth) req.root now
              (rskFn i) h, if_pos he]
          refine Or.inr ⟨newRecord u p (optSucc req.depth) req.root now
            (rskFn i), ?_, rfl, rfl, rfl, rfl⟩
          exact addLinks_stable ext cfg req base p now rskFn rest _ _ d _ hnew
            (pyGT_self _) (pyLT_self _)
        · have hnone : flookup (add_to_frontier ext f u p (optSucc req.depth)
              req.root now (rskFn i)) d = none := by
            rw [add_flookup_none ext f u p (optSucc req.depth) req.root now
              (rskFn i) h, if_neg he]
          exact ih _ _ d hnone

theorem add_new_links_nonenglish (ext : Ext) (cfg : Config) (f : Frontier)
    (req : ScrapingRequest) (resp : Resp) (now : Nat) (rskFn : Nat → Nat)
    (htub : tubingenMatch resp.text = true)
    (heng : is_english resp.langs = false) :
    add_new_links_to_frontier ext cfg f req resp now rskFn
      = addLinks ext cfg req resp.final_url Priority.low now rskFn resp.hrefs 1
          (if is_url_valid cfg (english_variant resp.final_url) then
            add_to_frontier ext
              (update_doc f req.doc_id
                { features_tubingen := some (some true) } now)
              (english_variant resp.final_url)
              Priority.high (optSucc req.depth) req.root now (rskFn 0)
          else update_doc f req.doc_id
            { features_tubingen := some (some true) } now) := by
  simp [add_new_links_to_frontier, htub, heng]

/-- Claim C6: non-English language branch — for a fetched page matching
the relevance pattern whose declared language is not English, the
record gets features_tubingen = true while features_english is left as
it was (so it stays false); every record newly created by link
discovery, other than the English-variant candidate, is enqueued
pending at priority low with depth = request.depth + 1 and the
request's root; and the synthesized /en candidate (same origin, path
replaced by /en) is enqueued pending at priority high exactly when it
passes validation — when it fails validation every newly created record
is a low-priority one. -/
theorem claim_C6_language_branch (ext : Ext) (cfg : Config) (f : Frontier)
    (req : ScrapingRequest) (resp : Resp) (now : Nat) (rskFn : Nat → Nat)
    (r0 : Record) (hr0 : flookup f req.doc_id = some r0)
    (htub : tubingenMatch resp.text = true)
    (heng : is_english resp.langs = false) :
    (∃ r', flookup (add_new_links_to_frontier ext cfg f req resp now rskFn)
          req.doc_id = some r'
        ∧ r'.features_tubingen = some true
        ∧ r'.features_english = r0.features_english)
    ∧ (∀ d r', flookup f d = none →
        d ≠ create_id_for_url ext (english_variant resp.final_url) →
        flookup (add_new_links_to_frontier ext cfg f req resp now rskFn) d
            = some r' →
        r'.priority = some Priority.low.value
          ∧ r'.status = some Status.pending
          ∧ r'.depth = optSucc req.depth ∧ r'.root = req.root)
    ∧ (is_url_valid cfg (english_variant resp.final_url) = true →
        flookup f (create_id_for_url ext (english_variant resp.final_url))
            = none →
        ∃ r', flookup (add_new_links_to_frontier ext cfg f req resp now rskFn)
            (create_id_for_url ext (english_variant resp.final_url)) = some r'
          ∧ r'.priority = some Priority.high.value
          ∧ r'.status = some Status.pending ∧ r'.depth = optSucc req.depth)
    ∧ (is_url_valid cfg (english_variant resp.final_url) = false →
        ∀ d r', flookup f d = none →
          flookup (add_new_links_to_frontier ext cfg f req resp now rskFn) d
              = some r' →
          r'.priority = some Priority.low.value
            ∧ r'.status = some Status.pending) := by
  have heq := add_new_links_nonenglish ext cfg f req resp now rskFn htub heng
  have h1 : flookup (update_doc f req.doc_id
      { features_tubingen := some (some true) } now) req.doc_id
      = some (applyUpd
          { features_tubingen := some (some true), updated := some (some now) }
          r0) := by
    rw [update_doc_flookup_self, hr0]
    rfl
  refine ⟨?_, ?_, ?_, ?_⟩
  · rw [heq]
    by_cases hv : is_url_valid cfg (english_variant resp.final_url) = true
    · rw [if_pos hv]
      obtain ⟨r2, h2, e2⟩ := add_flookup_some ext _ _ Priority.high
        (optSucc req.depth) req.root now (rskFn 0) h1
      obtain ⟨r', h', e'⟩ := addLinks_eqOutsideSched ext cfg req
        resp.final_url Priority.low now rskFn resp.hrefs 1 _ _ _ h2
      obtain ⟨-, -, -, -, -, -, -, eft, efe⟩ :
          EqOutsideSched (applyUpd
            { features_tubingen := some (some true)
              updated := some (some now) } r0) r' := e2.trans e'
      refine ⟨r', h', ?_, ?_⟩
      · rw [eft]
        simp [applyUpd]
      · rw [efe]
        simp [applyUpd]
    · rw [if_neg hv]
      obtain ⟨r', h', e'⟩ := addLinks_eqOutsideSched ext cfg req
        resp.final_url Priority.low now rskFn resp.hrefs 1 _ _ _ h1
      obtain ⟨-, -, -, -, -, -, -, eft, efe⟩ := e'
      refine ⟨r', h', ?_, ?_⟩
      · rw [eft]
        simp [applyUpd]
      · rw [efe]
        simp [applyUpd]
  · intro d r' hdn hne hres
    have hne0 : d ≠ req.doc_id := by
      intro e
      rw [e, hr0] at hdn
      cases hdn
    have hf1 : flookup (update_doc f req.doc_id
        { features_tubingen := some (some true) } now) d = none := by
      rw [update_doc_flookup_ne f req.doc_id _ now hne0]
      exact hdn
    rw [heq] at hres
    by_cases hv : is_url_valid cfg (english_variant resp.final_url) = true
    · rw [if_pos hv] at hres
      have hf2 : flookup (add_to_frontier ext
          (update_doc f req.doc_id
            { features_tubingen := some (some true) } now)
          (english_variant resp.final_url) Priority.high (optSucc req.depth)
          req.root now (rskFn 0)) d = none := by
        rw [add_flookup_ne ext _ _ Priority.high (optSucc req.depth) req.root
          now (rskFn 0) hne]
        exact hf1
      rcases addLinks_new ext cfg req resp.final_url Priority.low now rskFn
          resp.hrefs 1 _ d hf2 with hn | ⟨r'', h'', hst, hpri, hdep, hroot⟩
      · rw [hres] at hn
        cases hn
      · rw [hres] at h''
        obtain rfl : r'' = r' := by
          injection h'' with h
          exact h.symm
        exact ⟨hpri, hst, hdep, hroot⟩
    · rw [if_neg hv] at hres
      rcases addLinks_new ext cfg req resp.final_url Priority.low now rskFn
          resp.hrefs 1 _ d hf1 with hn | ⟨r'', h'', hst, hpri, hdep, hroot⟩
      · rw [hres] at hn
        cases hn
      · rw [hres] at h''
        obtain rfl : r'' = r' := by
          injection h'' with h
          exact h.symm
        exact ⟨hpri, hst, hdep, hroot⟩
  · intro hv hen
    have hne0 : create_id_for_url ext (english_variant resp.final_url)
        ≠ req.doc_id := by
      intro e
      rw [e, hr0] at hen
      cases hen
    have hf1 : flookup (update_doc f req.doc_id
        { features_tubingen := some (some true) } now)
        (create_id_for_url ext (english_variant resp.final_url)) = none := by
      rw [update_doc_flookup_ne f req.doc_id _ now hne0]
      exact hen
    have hf2 : flookup (add_to_frontier ext
        (update_doc f req.doc_id
          { features_tubingen := some (some true) } now)
        (english_variant resp.final_url) Priority.high (optSucc req.depth)
        req.root now (rskFn 0))
        (create_id_for_url ext (english_variant resp.final_url))
        = some (newRecord (english_variant resp.final_url) Priority.high
            (optSucc req.depth) req.root now (rskFn 0)) := by
      rw [add_flookup_none ext _ _ Priority.high (optSucc req.depth) req.root
        now (rskFn 0) hf1, if_pos rfl]
    rw [heq, if_pos hv]
    refine ⟨newRecord (english_variant resp.final_url) Priority.high
      (optSucc req.depth) req.root now (rskFn 0), ?_, rfl, rfl, rfl⟩
    exact addLinks_stable ext cfg req resp.final_url Priority.low now rskFn
      resp.hrefs 1 _ _ _ hf2 (pyGT_self _) rfl
  · intro hv d r' hdn hres
    have hne0 : d ≠ req.doc_id := by
      intro e
      rw [e, hr0] at hdn
      cases hdn
    have hf1 : flookup (update_doc f req.doc_id
        { features_tubingen := some (some true) } now) d = none := by
      rw [update_doc_flookup_ne f req.doc_id _ now hne0]
      exact hdn
    rw [heq, if_neg (by rw [hv]; exact Bool.false_ne_true)] at hres
    rcases addLinks_new ext cfg req resp.final_url Priority.low now rskFn
        resp.hrefs 1 _ d hf1 with hn | ⟨r'', h'', hst, hpri, hdep, hroot⟩
    · rw [hres] at hn
      cases hn
    · rw [hres] at h''
      obtain rfl : r'' = r' := by
        injection h'' with h
        exact h.symm
      exact ⟨hpri, hst⟩

/-- Concrete relevant non-English response, for the C6 witness. -/
def respW6 : Resp :=
  { final_url := u2W, is_html := true, size := 10
    text := "Visit Tuebingen old town", langs := ["de"]
    hrefs := ["http://example.com/b"] }

theorem claim_C6_witness :
    flookup fW reqW.doc_id = some recW
      ∧ tubingenMatch respW6.text = true
      ∧ is_english respW6.langs = false
      ∧ ((∃ r', flookup (add_new_links_to_frontier extId cfgW fW reqW respW6 3
              (fun i => i)) reqW.doc_id = some r'
            ∧ r'.features_tubingen = some true
            ∧ r'.features_english = recW.features_english)
        ∧ (∀ d r', flookup fW d = none →
            d ≠ create_id_for_url extId (english_variant respW6.final_url) →
            flookup (add_new_links_to_frontier extId cfgW fW reqW respW6 3
                (fun i => i)) d = some r' →
            r'.priority = some Priority.low.value
              ∧ r'.status = some Status.pending
              ∧ r'.depth = optSucc reqW.depth ∧ r'.root = reqW.root)
        ∧ (is_url_valid cfgW (english_variant respW6.final_url) = true →
            flookup fW (create_id_for_url extId
                (english_variant respW6.final_url)) = none →
            ∃ r', flookup (add_new_links_to_frontier extId cfgW fW reqW respW6
                3 (fun i => i))
                (create_id_for_url extId (english_variant respW6.final_url))
                = some r'
              ∧ r'.priority = some Priority.high.value
              ∧ r'.status = some Status.pending
              ∧ r'.depth = optSucc reqW.depth)
        ∧ (is_url_valid cfgW (english_variant respW6.final_url) = false →
            ∀ d r', flookup fW d = none →
              flookup (add_new_links_to_frontier extId cfgW fW reqW respW6 3
                  (fun i => i)) d = some r' →
              r'.priority = some Priority.low.value
                ∧ r'.status = some Status.pending)) :=
  ⟨rfl, by decide, by decide,
    claim_C6_language_branch extId cfgW fW reqW respW6 3 (fun i => i) recW
      rfl (by decide) (by decide)⟩

theorem add_new_links_english (ext : Ext) (cfg : Config) (f : Frontier)
    (req : ScrapingRequest) (resp : Resp) (now : Nat) (rskFn : Nat → Nat)
    (htub : tubingenMatch resp.text = true)
    (heng : is_english resp.langs = true) :
    add_new_links_to_frontier ext cfg f req resp now rskFn
      = addLinks ext cfg req resp.final_url Priority.high now rskFn
          resp.hrefs 0
          (update_doc f req.doc_id
            { features_tubingen := some (some true)
              features_english := some (some true) } now) := by
  simp [add_new_links_to_frontier, htub, heng]

theorem update_doc_status_preserved {u : Upd} (hu : u.status = none)
    (f : Frontier) (k : String) (now : Nat) {d : String} {r : Record}
    (hd : flookup f d = some r) :
    ∃ r', flookup (update_doc f k u now) d = some r'
      ∧ r'.status = r.status := by
  by_cases he : d = k
  · subst he
    rw [update_doc_flookup_self, hd]
    exact ⟨_, rfl, by simp [applyUpd, hu]⟩
  · rw [update_doc_flookup_ne f k u now he]
    exact ⟨r, hd, rfl⟩

theorem add_new_links_status_preserved (ext : Ext) (cfg : Config)
    (f : Frontier) (req : ScrapingRequest) (resp : Resp) (now : Nat)
    (rskFn : Nat → Nat) {d : String} {r : Record}
    (hd : flookup f d = some r) :
    ∃ r', flookup (add_new_links_to_frontier ext cfg f req resp now rskFn) d
      = some r' ∧ r'.status = r.status := by
  rcases htub : tubingenMatch resp.text with _ | _
  · rw [add_new_links_no_match ext cfg f req resp now rskFn htub]
    exact ⟨r, hd, rfl⟩
  · rcases heng : is_english resp.langs with _ | _
    · rw [add_new_links_nonenglish ext cfg f req resp now rskFn htub heng]
      obtain ⟨r1, h1, hs1⟩ := update_doc_status_preserved
        (u := { features_tubingen := some (some true) }) rfl f req.doc_id
        now hd
      by_cases hv : is_url_valid cfg (english_variant resp.final_url) = true
      · rw [if_pos hv]
        obtain ⟨r2, h2, e2⟩ := add_flookup_some ext _ _ Priority.high
          (optSucc req.depth) req.root now (rskFn 0) h1
        obtain ⟨r', h', e'⟩ := addLinks_eqOutsideSched ext cfg req
          resp.final_url Priority.low now rskFn resp.hrefs 1 _ _ _ h2
        exact ⟨r', h', by
          rw [(e2.trans e').2.2.2.1, hs1]⟩
      · rw [if_neg hv]
        obtain ⟨r', h', e'⟩ := addLinks_eqOutsideSched ext cfg req
          resp.final_url Priority.low now rskFn resp.hrefs 1 _ _ _ h1
        exact ⟨r', h', by rw [e'.2.2.2.1, hs1]⟩
    · rw [add_new_links_english ext cfg f req resp now rskFn htub heng]
      obtain ⟨r1, h1, hs1⟩ := update_doc_status_preserved
        (u := { features_tubingen := some (some true)
                features_english := some (some true) }) rfl f req.doc_id
        now hd
      obtain ⟨r', h', e'⟩ := addLinks_eqOutsideSched ext cfg req
        resp.final_url Priority.high now rskFn resp.hrefs 0 _ _ _ h1
      exact ⟨r', h', by rw [e'.2.2.2.1, hs1]⟩

theorem processRequest_status_ne (ext : Ext) (cfg : Config) (f : Frontier)
    (req : ScrapingRequest) (res : Option Resp) (now : Nat)
    (rskFn : Nat → Nat) {d : String} {r : Record}
    (hne : d ≠ req.doc_id) (hd : flookup f d = some r) :
    ∃ r', flookup (processRequest ext cfg f req res now rskFn) d = some r'
      ∧ r'.status = r.status := by
  rcases res with _ | resp
  · rw [processRequest, update_doc_flookup_ne f req.doc_id _ now hne]
    exact ⟨r, hd, rfl⟩
  · rcases hc : (!resp.is_html || decide (resp.size > cfg.max_filesize))
        with _ | _
    · simp only [processRequest, hc, Bool.false_eq_true, if_false]
      obtain ⟨r1, h1, hs1⟩ := add_new_links_status_preserved ext cfg f req
        resp now rskFn hd
      rw [update_doc_flookup_ne _ req.doc_id _ now hne]
      exact ⟨r1, h1, hs1⟩
    · simp only [processRequest, hc, if_true]
      rw [update_doc_flookup_ne f req.doc_id _ now hne]
      exact ⟨r, hd, rfl⟩

theorem processRequest_self_terminal (ext : Ext) (cfg : Config)
    (f : Frontier) (req : ScrapingRequest) (res : Option Resp) (now : Nat)
    (rskFn : Nat → Nat) :
    ∃ r', flookup (processRequest ext cfg f req res now rskFn) req.doc_id
        = some r'
      ∧ (r'.status = some Status.completed
         ∨ r'.status = some Status.failed) := by
  rcases res with _ | resp
  · obtain ⟨r', h', hs⟩ := update_doc_status_self f req.doc_id
      { status := some (some Status.failed) } now rfl
    exact ⟨r', h', Or.inr hs⟩
  · rcases hc : (!resp.is_html || decide (resp.size > cfg.max_filesize))
        with _ | _
    · simp only [processRequest, hc, Bool.false_eq_true, if_false]
      obtain ⟨r', h', hs⟩ := update_doc_status_self
        (add_new_links_to_frontier ext cfg f req resp now rskFn) req.doc_id
        { status := some (some Status.completed)
          url := some (some (urlToString resp.final_url))
          domain := some (some resp.final_url.host) } now rfl
      exact ⟨r', h', Or.inl hs⟩
    · simp only [processRequest, hc, if_true]
      obtain ⟨r', h', hs⟩ := update_doc_status_self f req.doc_id
        { status := some (some Status.failed) } now rfl
      exact ⟨r', h', Or.inr hs⟩

theorem foldProcess_status_preserved_of_ne (ext : Ext) (cfg : Config)
    (now : Nat) (rskFn : Nat → Nat) {d : String}
    (L : List (ScrapingRequest × Option Resp)) :
    ∀ f r, (∀ p ∈ L, p.1.doc_id ≠ d) → flookup f d = some r →
      ∃ r', flookup (L.foldl
          (fun acc p => processRequest ext cfg acc p.1 p.2 now rskFn) f) d
        = some r' ∧ r'.status = r.status := by
  induction L with
  | nil => intro f r _ hd; exact ⟨r, hd, rfl⟩
  | cons p rest ih =>
      intro f r hall hd
      obtain ⟨r1, h1, hs1⟩ := processRequest_status_ne ext cfg f p.1 p.2 now
        rskFn (Ne.symm (hall p (List.mem_cons_self p rest))) hd
      obtain ⟨r', h', hs'⟩ := ih _ r1
        (fun q hq => hall q (List.mem_cons.2 (Or.inr hq))) h1
      exact ⟨r', h', hs'.trans hs1⟩

theorem foldProcess_status_cases (ext : Ext) (cfg : Config) (now : Nat)
    (rskFn : Nat → Nat) {d : String}
    (L : List (ScrapingRequest × Option Resp)) :
    ∀ f r, flookup f d = some r →
      ∃ r', flookup (L.foldl
          (fun acc p => processRequest ext cfg acc p.1 p.2 now rskFn) f) d
          = some r'
        ∧ (r'.status = r.status ∨ r'.status = some Status.completed
           ∨ r'.status = some Status.failed) := by
  induction L with
  | nil => intro f r hd; exact ⟨r, hd, Or.inl rfl⟩
  | cons p rest ih =>
      intro f r hd
      by_cases he : p.1.doc_id = d
      · obtain ⟨r1, h1, hterm⟩ := processRequest_self_terminal ext cfg f p.1
          p.2 now rskFn
        rw [he] at h1
        obtain ⟨r', h', hs'⟩ := ih _ r1 h1
        refine ⟨r', h', ?_⟩
        rcases hs' with hs' | hs' | hs'
        · rcases hterm with ht | ht
          · exact Or.inr (Or.inl (hs'.trans ht))
          · exact Or.inr (Or.inr (hs'.trans ht))
        · exact Or.inr (Or.inl hs')
        · exact Or.inr (Or.inr hs')
      · obtain ⟨r1, h1, hs1⟩ := processRequest_status_ne ext cfg f p.1 p.2
          now rskFn (fun h => he h.symm) hd
        obtain ⟨r', h', hs'⟩ := ih _ r1 h1
        refine ⟨r', h', ?_⟩
        rcases hs' with hs' | hs' | hs'
        · exact Or.inl (hs'.trans hs1)
        · exact Or.inr (Or.inl hs')
        · exact Or.inr (Or.inr hs')

theorem batch_pending (cfg : Config) {f : Frontier} (hwf : WF f)
    {req : ScrapingRequest} (hreq : req ∈ fetch_next_doc_batch cfg f)
    {r : Record} (hr : flookup f req.doc_id = some r) :
    r.status = some Status.pending := by
  obtain ⟨kr, hkr, hto⟩ := List.mem_map.1 hreq
  obtain ⟨hmem, hst, _, _, _⟩ := mem_batchRows cfg f hkr
  obtain ⟨k, v⟩ := kr
  have hlk : flookup f k = some v := flookup_of_mem hwf hmem
  have hk : req.doc_id = k := by rw [← hto]; rfl
  rw [hk, hlk] at hr
  injection hr with hr
  rw [← hr]
  exact hst

theorem processBatch_terminal_stable (ext : Ext) (cfg : Config)
    {f : Frontier} {d : String} {r : Record} (hwf : WF f)
    (hr : flookup f d = some r)
    (hterm : r.status = some Status.completed
             ∨ r.status = some Status.failed)
    (outs : List (Option Resp)) (now : Nat) (rskFn : Nat → Nat) :
    ∃ r', flookup (processBatch ext cfg f outs now rskFn) d = some r'
      ∧ r'.status = r.status := by
  refine foldProcess_status_preserved_of_ne ext cfg now rskFn _ f r ?_ hr
  intro p hp he
  have hb : p.1 ∈ fetch_next_doc_batch cfg f := (List.of_mem_zip hp).1
  have := batch_pending cfg hwf hb (by rw [he]; exact hr)
  rcases hterm with ht | ht <;> rw [this] at ht <;> cases ht

/-- Claim C1: terminal status stability — across one whole iteration of
the run loop (a processBatch step covering every add_or_improve and
update call the crawler makes), a record that was completed or failed
keeps its status unchanged; any record whose status does change was
pending before and is completed or failed afterwards (status moves only
pending→completed or pending→failed, never backwards); and a single
add_or_improve (add_to_frontier) call never changes the status of any
existing record. -/
theorem claim_C1_terminal_status_stability (ext : Ext) (cfg : Config)
    (f : Frontier) (outs : List (Option Resp)) (now : Nat)
    (rskFn : Nat → Nat) (d : String) (r r' : Record) (hwf : WF f)
    (hr : flookup f d = some r)
    (hr' : flookup (processBatch ext cfg f outs now rskFn) d = some r') :
    ((r.status = some Status.completed ∨ r.status = some Status.failed) →
      r'.status = r.status)
    ∧ (r'.status ≠ r.status →
        r.status = some Status.pending
          ∧ (r'.status = some Status.completed
             ∨ r'.status = some Status.failed))
    ∧ (∀ url p dep root now2 rsk r2,
        flookup (add_to_frontier ext f url p dep root now2 rsk) d = some r2 →
        r2.status = r.status) := by
  refine ⟨?_, ?_, ?_⟩
  · intro hterm
    obtain ⟨r'', h'', hs⟩ := processBatch_terminal_stable ext cfg hwf hr
      hterm outs now rskFn
    rw [hr'] at h''
    injection h'' with h''
    rw [h'']
    exact hs
  · intro hne
    constructor
    · by_cases hall : ∀ p ∈ (fetch_next_doc_batch cfg f).zip outs,
          p.1.doc_id ≠ d
      · obtain ⟨r'', h'', hs⟩ := foldProcess_status_preserved_of_ne ext cfg
          now rskFn _ f r hall hr
        have h2 : flookup (processBatch ext cfg f outs now rskFn) d
            = some r'' := h''
        rw [hr'] at h2
        injection h2 with h2
        rw [← h2] at hs
        exact absurd hs hne
      · push_neg at hall
        obtain ⟨p, hp, hpd⟩ := hall
        have hb : p.1 ∈ fetch_next_doc_batch cfg f := (List.of_mem_zip hp).1
        exact batch_pending cfg hwf hb (by rw [hpd]; exact hr)
    · obtain ⟨r'', h'', hs⟩ := foldProcess_status_cases ext cfg now rskFn _
        f r hr
      have h2 : flookup (processBatch ext cfg f outs now rskFn) d
          = some r'' := h''
      rw [hr'] at h2
      injection h2 with h2
      subst h2
      rcases hs with hs | hs | hs
      · exact absurd hs hne
      · exact Or.inl hs
      · exact Or.inr hs
  · intro url p dep root now2 rsk r2 h2
    obtain ⟨r2', h2', e2⟩ := add_flookup_some ext f url p dep root now2 rsk hr
    rw [h2] at h2'
    injection h2' with h2'
    subst h2'
    exact e2.2.2.2.1

theorem claim_C1_witness :
    WF fW2
      ∧ flookup fW2 "docB" = some recW2
      ∧ flookup (processBatch extId cfgW fW2 [none] 3 (fun i => i)) "docB"
          = some recW2
      ∧ (((recW2.status = some Status.completed
            ∨ recW2.status = some Status.failed) →
          recW2.status = recW2.status)
        ∧ (recW2.status ≠ recW2.status →
            recW2.status = some Status.pending
              ∧ (recW2.status = some Status.completed
                 ∨ recW2.status = some Status.failed))
        ∧ (∀ url p dep root now2 rsk r2,
            flookup (add_to_frontier extId fW2 url p dep root now2 rsk)
                "docB" = some r2 →
            r2.status = recW2.status)) :=
  ⟨by decide, rfl, by decide,
    claim_C1_terminal_status_stability extId cfgW fW2 [none] 3 (fun i => i)
      "docB" recW2 recW2 (by decide) rfl (by decide)⟩

theorem keys_map_keyed (f : Frontier) (k : String) (t : Record → Record) :
    (f.map fun kr => if kr.1 = k then (kr.1, t kr.2) else kr).map Prod.fst
      = f.map Prod.fst := by
  induction f with
  | nil => rfl
  | cons kr rest ih =>
      obtain ⟨k0, r0⟩ := kr
      dsimp only [List.map_cons]
      by_cases h0 : k0 = k
      · rw [if_pos h0]
        dsimp only
        rw [ih]
      · rw [if_neg h0]
        dsimp only
        rw [ih]

theorem WF_append_fresh {f : Frontier} (hwf : WF f) {k : String}
    (r : Record) (h : flookup f k = none) : WF (f ++ [(k, r)]) := by
  unfold WF at hwf ⊢
  rw [List.map_append, List.nodup_append]
  refine ⟨hwf, List.nodup_singleton _, ?_⟩
  intro a ha hb
  simp only [List.map_cons, List.map_nil, List.mem_singleton] at hb
  subst hb
  exact flookup_eq_none_iff.1 h ha

theorem WF_update_doc (f : Frontier) (k : String) (u : Upd) (now : Nat)
    (hwf : WF f) : WF (update_doc f k u now) := by
  rcases h : flookup f k with _ | e
  · simp only [update_doc, h]
    exact WF_append_fresh hwf _ h
  · simp only [update_doc, h]
    unfold WF at hwf ⊢
    rw [keys_map_keyed]
    exact hwf

theorem WF_add (ext : Ext) (f : Frontier) (url : Url) (p : Priority)
    (dep : Option Int) (root : Option String) (now rsk : Nat)
    (hwf : WF f) : WF (add_to_frontier ext f url p dep root now rsk) := by
  rcases ht : flookup f (create_id_for_url ext url) with _ | entry
  · rw [add_to_frontier_insert p dep root now rsk ht]
    exact WF_append_fresh hwf _ ht
  · rcases hc : decide (entry.status = some Status.pending)
        && (pyGT entry.depth dep || pyLT entry.priority (some p.value))
        with _ | _
    · rw [add_to_frontier_noop p dep root now rsk ht hc]
      exact hwf
    · rw [add_to_frontier_improve p dep root now rsk ht hc]
      exact WF_update_doc f _ _ now hwf

theorem WF_addLinks (ext : Ext) (cfg : Config) (req : ScrapingRequest)
    (base : Url) (p : Priority) (now : Nat) (rskFn : Nat → Nat)
    (hrefs : List String) :
    ∀ i f, WF f → WF (addLinks ext cfg req base p now rskFn hrefs i f) := by
  induction hrefs with
  | nil => intro i f hwf; exact hwf
  | cons href rest ih =>
      intro i f hwf
      rcases hx : extract_url ext cfg href base with _ | u
      · simp only [addLinks, hx]
        exact ih _ f hwf
      · simp only [addLinks, hx]
        exact ih _ _ (WF_add ext f u p (optSucc req.depth) req.root now
          (rskFn i) hwf)

theorem WF_add_new_links (ext : Ext) (cfg : Config) (f : Frontier)
    (req : ScrapingRequest) (resp : Resp) (now : Nat) (rskFn : Nat → Nat)
    (hwf : WF f) :
    WF (add_new_links_to_frontier ext cfg f req resp now rskFn) := by
  rcases htub : tubingenMatch resp.text with _ | _
  · rw [add_new_links_no_match ext cfg f req resp now rskFn htub]
    exact hwf
  · rcases heng : is_english resp.langs with _ | _
    · rw [add_new_links_nonenglish ext cfg f req resp now rskFn htub heng]
      refine WF_addLinks ext cfg req resp.final_url Priority.low now rskFn
        resp.hrefs 1 _ ?_
      by_cases hv : is_url_valid cfg (english_variant resp.final_url) = true
      · rw [if_pos hv]
        exact WF_add ext _ _ Priority.high (optSucc req.depth) req.root now
          (rskFn 0) (WF_update_doc f req.doc_id _ now hwf)
      · rw [if_neg hv]
        exact WF_update_doc f req.doc_id _ now hwf
    · rw [add_new_links_english ext cfg f req resp now rskFn htub heng]
      exact WF_addLinks ext cfg req resp.final_url Priority.high now rskFn
        resp.hrefs 0 _ (WF_update_doc f req.doc_id _ now hwf)

theorem WF_processRequest (ext : Ext) (cfg : Config) (f : Frontier)
    (req : ScrapingRequest) (res : Option Resp) (now : Nat)
    (rskFn : Nat → Nat) (hwf : WF f) :
    WF (processRequest ext cfg f req res now rskFn) := by
  rcases res with _ | resp
  · exact WF_update_doc f req.doc_id _ now hwf
  · rcases hc : (!resp.is_html || decide (resp.size > cfg.max_filesize))
        with _ | _
    · simp only [processRequest, hc, Bool.false_eq_true, if_false]
      exact WF_update_doc _ req.doc_id _ now
        (WF_add_new_links ext cfg f req resp now rskFn hwf)
    · simp only [processRequest, hc, if_true]
      exact WF_update_doc f req.doc_id _ now hwf

theorem WF_foldProcess (ext : Ext) (cfg : Config) (now : Nat)
    (rskFn : Nat → Nat) (L : List (ScrapingRequest × Option Resp)) :
    ∀ f, WF f → WF (L.foldl
      (fun acc p => processRequest ext cfg acc p.1 p.2 now rskFn) f) := by
  induction L with
  | nil => intro f hwf; exact hwf
  | cons p rest ih =>
      intro f hwf
      exact ih _ (WF_processRequest ext cfg f p.1 p.2 now rskFn hwf)

theorem WF_processBatch (ext : Ext) (cfg : Config) (f : Frontier)
    (outs : List (Option Resp)) (now : Nat) (rskFn : Nat → Nat)
    (hwf : WF f) : WF (processBatch ext cfg f outs now rskFn) :=
  WF_foldProcess ext cfg now rskFn _ f hwf

theorem failed_not_scheduled (cfg : Config) {g : Frontier} {d : String}
    {r : Record} (hwf : WF g) (hr : flookup g d = some r)
    (hf : r.status = some Status.failed) :
    ∀ req ∈ fetch_next_doc_batch cfg g, req.doc_id ≠ d := by
  intro req hreq he
  have hp := batch_pending cfg hwf hreq (by rw [he]; exact hr)
  rw [hp] at hf
  simp at hf

theorem fetch_response_none {attemptResult : Nat → Option Resp}
    (h : ∀ i, i < 3 → attemptResult i = none) :
    fetch_response attemptResult = none := by
  have h0 := h 0 (by norm_num)
  have h1 := h 1 (by norm_num)
  have h2 := h 2 (by norm_num)
  simp [fetch_response, retryAttempts, h0, h1, h2]

/-- Claim C7: retry exhaustion — when every fetch attempt fails (three
consecutive timeouts or errors), `_get`'s tenacity wrapper exhausts its
three attempts and fetch_response returns none rather than letting an
exception escape (in the model it is a total function into an Option);
processing that `none` outcome marks the request's record failed; and a
record that is failed stays failed across every further iteration of
the run loop and is never again selected by the scheduler (its doc_id
appears in no future batch), because batches draw only from pending
records. -/
theorem claim_C7_retry_exhaustion (ext : Ext) (cfg : Config)
    (attemptResult : Nat → Option Resp)
    (hatt : ∀ i, i < 3 → attemptResult i = none)
    (f : Frontier) (d : String) (r : Record) (hwf : WF f)
    (hr : flookup f d = some r) (hfail : r.status = some Status.failed)
    (oracle : Nat → List (Option Resp)) (nowFn rskFn : Nat → Nat) :
    fetch_response attemptResult = none
    ∧ (∀ f0 req now, ∃ r',
        flookup (processRequest ext cfg f0 req (fetch_response attemptResult)
            now rskFn) req.doc_id = some r'
          ∧ r'.status = some Status.failed)
    ∧ (∀ n, ∃ r', flookup (runBatches ext cfg oracle nowFn rskFn n f) d
          = some r' ∧ r'.status = some Status.failed)
    ∧ (∀ n req, req ∈ fetch_next_doc_batch cfg
          (runBatches ext cfg oracle nowFn rskFn n f) → req.doc_id ≠ d) := by
  have hfr := fetch_response_none hatt
  have hrun : ∀ n, WF (runBatches ext cfg oracle nowFn rskFn n f)
      ∧ ∃ r', flookup (runBatches ext cfg oracle nowFn rskFn n f) d = some r'
        ∧ r'.status = some Status.failed := by
    intro n
    induction n with
    | zero => exact ⟨hwf, r, hr, hfail⟩
    | succ n ih =>
        obtain ⟨ihwf, r1, h1, hs1⟩ := ih
        refine ⟨WF_processBatch ext cfg _ (oracle n) (nowFn n) rskFn ihwf, ?_⟩
        obtain ⟨r', h', hs'⟩ := processBatch_terminal_stable ext cfg ihwf h1
          (Or.inr hs1) (oracle n) (nowFn n) rskFn
        exact ⟨r', h', hs'.trans hs1⟩
  refine ⟨hfr, ?_, fun n => (hrun n).2, ?_⟩
  · intro f0 req now
    rw [hfr]
    exact update_doc_status_self f0 req.doc_id
      { status := some (some Status.failed) } now rfl
  · intro n req hreq
    obtain ⟨hwfn, r', h', hs'⟩ := hrun n
    exact failed_not_scheduled cfg hwfn h' hs' req hreq

/-- Failed record for the C7 witness. -/
def recW3 : Record :=
  { recW with main_domain := some "third.net", status := some Status.failed }

/-- One-row frontier holding the failed record. -/
def fW7 : Frontier := [("docF", recW3)]

theorem claim_C7_witness :
    (∀ i, i < 3 → (fun _ : Nat => (none : Option Resp)) i = none)
      ∧ WF fW7 ∧ flookup fW7 "docF" = some recW3
      ∧ recW3.status = some Status.failed
      ∧ (fetch_response (fun _ => none) = none
        ∧ (∀ f0 req now, ∃ r',
            flookup (processRequest extId cfgW f0 req
                (fetch_response (fun _ => none)) now (fun i => i))
                req.doc_id = some r'
              ∧ r'.status = some Status.failed)
        ∧ (∀ n, ∃ r', flookup (runBatches extId cfgW (fun _ => [])
              (fun i => i) (fun i => i) n fW7) "docF" = some r'
            ∧ r'.status = some Status.failed)
        ∧ (∀ n req, req ∈ fetch_next_doc_batch cfgW
              (runBatches extId cfgW (fun _ => []) (fun i => i) (fun i => i)
                n fW7) → req.doc_id ≠ "docF")) :=
  ⟨fun _ _ => rfl, by decide, rfl, rfl,
    claim_C7_retry_exhaustion extId cfgW (fun _ => none) (fun _ _ => rfl)
      fW7 "docF" recW3 (by decide) rfl rfl (fun _ => []) (fun i => i)
      (fun i => i)⟩

end Crawl
